import Mathlib

/-!
Verification of the GGCE closure-construction engine.

The development shallowly embeds the two source files of the repository:

* `ggce/engine/system.py` — the partition generator `config_space_gen`,
  the legal-configuration enumerator, and the `System` pipeline
  (generalized-equation construction, master argument list, expansion,
  closure verification, basis indexing);
* `ggce/engine/structures.py` — `model_coupling_map`,
  `SystemParams._extend_terms` and the `LoadedParams` constructor.

Modules the sources import but that are not part of the repository snapshot
(`ggce.engine.terms`, `ggce.engine.equations`, `ggce.utils.combinatorics`,
the logger) are modelled from the specification; each such definition is
marked `Modelled from the spec:` in its doc comment.  In particular
`logger.critical` is modelled as a fatal abort (an `Except.error`), while
`logger.error` and `logger.info` only append log entries, exactly as the
specification's error-handling section prescribes.
-/

namespace GGCE

/-- Embedding of `ggce.engine.system.config_space_gen`.  The Python
generator yields, for `length == 1`, the singleton `(total_sum,)` and
otherwise iterates `value` over `0 .. total_sum`, prepending `value` to
every tuple produced by the recursive call on `(length - 1,
total_sum - value)`.  The embedding returns the full (finite) yielded
sequence in order; `length = 0` is never reached by any caller (the Python
code would recurse without a base case there) and is mapped to `[]`. -/
def config_space_gen : Nat → Nat → List (List Nat)
  | 0, _ => []
  | 1, total_sum => [[total_sum]]
  | n + 2, total_sum =>
      (List.range (total_sum + 1)).flatMap fun value =>
        (config_space_gen (n + 1) (total_sum - value)).map fun permutation =>
          value :: permutation

/-- Strict lexicographic order on lists of naturals, as a boolean test:
a shorter list that is a proper prefix counts as smaller, mirroring tuple
comparison; for the generator every yielded tuple has the same length so
only the pointwise case matters. -/
def lexLt : List Nat → List Nat → Bool
  | _, [] => false
  | [], _ :: _ => true
  | a :: as, b :: bs => decide (a < b) || (decide (a = b) && lexLt as bs)

/-- Python exception outcomes relevant to `ggce/engine/structures.py`:
`assert` failures raise `AssertionError`, explicit raises produce
`RuntimeError` with a message, and applying `len()` or iteration to a
non-sequence raises `TypeError`.  The three are distinct exception classes
in Python, which the claims distinguish. -/
inductive PyErr where
  | assertionError : PyErr
  | typeError : PyErr
  | runtimeError : String → PyErr
deriving DecidableEq

/-- Value returned by `model_coupling_map`: the float arithmetic is
embedded over exact rationals, with `math.sqrt` kept symbolic (the claims
about this function concern only its error behaviour, never the numeric
magnitude). -/
inductive CouplingVal where
  | plain : ℚ → CouplingVal
  | sqrtVal : ℚ → CouplingVal
deriving DecidableEq

/-- Embedding of `ggce.engine.structures.model_coupling_map`.  When
`ignore` is true the provided `lam` is returned unconditionally, before
any inspection of `coupling_type`; otherwise the four known labels are
dispatched and any other label raises `RuntimeError`. -/
def model_coupling_map (coupling_type : String) (t Omega lam : ℚ)
    (ignore : Bool) : Except PyErr CouplingVal :=
  if ignore then .ok (.plain lam)
  else if coupling_type = "H" then .ok (.sqrtVal (2 * t * Omega * lam))
  else if coupling_type = "EFB" then .ok (.plain lam)
  else if coupling_type = "SSH" then .ok (.sqrtVal (t * Omega * lam / 2))
  else if coupling_type = "bondSSH" then .ok (.sqrtVal (t * Omega * lam))
  else .error (.runtimeError ("Unknown coupling_type type " ++ coupling_type))

/-- Embedding of the `SingleTerm` namedtuple of
`ggce/engine/structures.py` (shift indexes `x`, `y`, dagger flag `d`,
coupling `g`, boson type `bt`); `y` takes the half-integer value `0.5`
for `bondSSH`, hence the rational fields. -/
structure SingleTerm where
  x : ℚ
  y : ℚ
  d : String
  g : ℚ
  bt : Nat
deriving DecidableEq

/-- Embedding of `SystemParams._extend_terms`: given the current `terms`
list it returns the extended list, or raises `RuntimeError` for a model
label outside `H`, `EFB`, `bondSSH`, `SSH` (dispatch order as in the
source). -/
def extend_terms (terms : List SingleTerm) (m : String) (g : ℚ) (bt : Nat) :
    Except PyErr (List SingleTerm) :=
  if m = "H" then
    .ok (terms ++ [⟨0, 0, "+", -g, bt⟩, ⟨0, 0, "-", -g, bt⟩])
  else if m = "EFB" then
    .ok (terms ++ [⟨1, 1, "+", g, bt⟩, ⟨-1, -1, "+", g, bt⟩,
      ⟨1, 0, "-", g, bt⟩, ⟨-1, 0, "-", g, bt⟩])
  else if m = "bondSSH" then
    .ok (terms ++ [⟨1, 1/2, "+", g, bt⟩, ⟨1, 1/2, "-", g, bt⟩,
      ⟨-1, -(1/2), "+", g, bt⟩, ⟨-1, -(1/2), "-", g, bt⟩])
  else if m = "SSH" then
    .ok (terms ++ [⟨1, 0, "+", g, bt⟩, ⟨1, 0, "-", g, bt⟩,
      ⟨1, 1, "+", -g, bt⟩, ⟨1, 1, "-", -g, bt⟩,
      ⟨-1, -1, "+", g, bt⟩, ⟨-1, -1, "-", g, bt⟩,
      ⟨-1, 0, "+", -g, bt⟩, ⟨-1, 0, "-", -g, bt⟩])
  else .error (.runtimeError "Unknown model type when setting terms")

/-- Dynamic Python value as it appears in the parameter dictionaries fed
to `LoadedParams`: a number (int and float are embedded together as exact
rationals) or a list. -/
inductive PyVal where
  | num : ℚ → PyVal
  | list : List PyVal → PyVal

mutual

/-- Python `==` on dynamic values: numeric equality on numbers,
elementwise equality on lists, `False` across kinds. -/
def pyEq : PyVal → PyVal → Bool
  | .num a, .num b => decide (a = b)
  | .list as, .list bs => pyEqList as bs
  | .num _, .list _ => false
  | .list _, .num _ => false

/-- Python `==` on two lists of dynamic values. -/
def pyEqList : List PyVal → List PyVal → Bool
  | [], [] => true
  | a :: as, b :: bs => pyEq a b && pyEqList as bs
  | [], _ :: _ => false
  | _ :: _, [] => false

end

/-- Truth of `isinstance(v, list)`. -/
def PyVal.isList : PyVal → Bool
  | .list _ => true
  | .num _ => false

/-- Truth of `isinstance(v, float) or isinstance(v, int)`. -/
def PyVal.isNum : PyVal → Bool
  | .num _ => true
  | .list _ => false

/-- Python `len(v)`: `TypeError` on a non-sequence. -/
def pyLen : PyVal → Except PyErr Nat
  | .list l => .ok l.length
  | .num _ => .error .typeError

/-- Python iteration over `v`: `TypeError` on a non-sequence. -/
def pyElems : PyVal → Except PyErr (List PyVal)
  | .list l => .ok l
  | .num _ => .error .typeError

/-- Length of an element already known to be a list (applied only after
an `isinstance(xx, list)` assert has passed). -/
def pyInnerLen : PyVal → Nat
  | .list l => l.length
  | .num _ => 0

/-- Python `assert b`: raises `AssertionError` when `b` is falsy. -/
def passert (b : Bool) : Except PyErr Unit :=
  if b then .ok () else .error .assertionError

/-- Entry of the `params` dictionary handed to `LoadedParams`: the two
fields `vals` and `cycle` of a parameter permutation. -/
structure ParamData where
  vals : PyVal
  cycle : String

/-- The parameter names requiring list-shaped `vals` in
`LoadedParams._assert_parameter`. -/
def listParamNames : List String :=
  ["M_extent", "N_bosons", "Omega", "lam", "g", "M_tfd", "N_tfd"]

/-- The parameter names requiring scalar-or-list `vals` in
`LoadedParams._assert_parameter`. -/
def scalarParamNames : List String :=
  ["hopping", "broadening", "absolute_extent", "max_bosons_per_site",
    "temperature"]

/-- Lazy evaluation of `all(len(xx) == 3 for xx in l)`: Python's `all`
short-circuits on the first falsy element, and `len` raises `TypeError`
on a non-list element it actually reaches. -/
def allLen3 : List PyVal → Except PyErr Bool
  | [] => .ok true
  | .num _ :: _ => .error .typeError
  | .list l :: rest => if l.length = 3 then allLen3 rest else .ok false

/-- Subscript `[2]` of a parameter row, total with defaults (applied only
after shape asserts guarantee a 3-element list). -/
def thirdEntry : PyVal → PyVal
  | .list l => l.getD 2 (.num 0)
  | .num q => .num q

/-- Evaluation of `all(vals[ii][2] == vals[ii + 1][2] for ii in
range(model_len - 1))`. -/
def consecThirdEq (l : List PyVal) (model_len : Nat) : Bool :=
  (List.range (model_len - 1)).all fun ii =>
    pyEq (thirdEntry (l.getD ii (.num 0))) (thirdEntry (l.getD (ii + 1) (.num 0)))

/-- Embedding of `LoadedParams._assert_parameter`, with the exact branch
structure of the source: list-shaped parameters assert `vals` is a list
before dispatching on `cycle`; scalar parameters dispatch on `cycle`
directly; names in neither category are not checked at all. -/
def assert_parameter (param_name : String) (data : ParamData)
    (model_len : Nat) : Except PyErr Unit :=
  if param_name ∈ listParamNames then
    match data.vals with
    | .num _ => .error .assertionError
    | .list l =>
      if data.cycle = "solo" then
        passert (decide (l.length = model_len))
      else if data.cycle = "zip" ∨ data.cycle = "prod" then do
        let _ ← passert (l.all PyVal.isList)
        passert (l.all fun xx => decide (pyInnerLen xx = model_len))
      else if data.cycle = "prod-linspace" then do
        let _ ← passert (decide (param_name ∈ (["Omega", "lam", "g"] : List String)))
        let _ ← passert (decide (l.length = model_len))
        let b ← allLen3 l
        let _ ← passert b
        passert (consecThirdEq l model_len)
      else .error (.runtimeError ("Unknown cycle: " ++ data.cycle))
  else if param_name ∈ scalarParamNames then
    if data.cycle = "solo" then
      passert data.vals.isNum
    else if data.cycle = "zip" ∨ data.cycle = "prod" then
      passert data.vals.isList
    else .error (.runtimeError ("Unknown cycle: " ++ data.cycle))
  else .ok ()

/-- Evaluation of `np.linspace(start, stop, num)` with `endpoint=True`
over exact rationals; the integer sample count is the floor of the third
entry (numpy requires an integer there). -/
def linspaceQ (a b : ℚ) (n : Nat) : List ℚ :=
  if n = 0 then []
  else if n = 1 then [a]
  else (List.range n).map fun i => a + (b - a) * i / ((n : ℚ) - 1)

/-- Round-half-to-even on exact rationals, the rounding mode of
`np.round`; float representation effects are outside the embedding. -/
def roundHalfEvenQ (q : ℚ) : ℤ :=
  let f := ⌊q⌋
  let r := q - (f : ℚ)
  if r < 1/2 then f
  else if (1 : ℚ)/2 < r then f + 1
  else if f % 2 = 0 then f else f + 1

/-- Evaluation of `np.round(x, 3)` over exact rationals. -/
def np_round3 (q : ℚ) : ℚ := (roundHalfEvenQ (q * 1000) : ℚ) / 1000

/-- Evaluation of `np.linspace(*xx)` for one parameter row: anything but
a 3-element numeric list is a `TypeError` (wrong argument shape). -/
def linspaceOf : PyVal → Except PyErr (List ℚ)
  | .list [PyVal.num a, PyVal.num b, PyVal.num c] =>
      .ok (linspaceQ a b (Int.toNat ⌊c⌋))
  | _ => .error .typeError

/-- Evaluation of `[np.linspace(*xx) for xx in vals]`. -/
def linspaceRows : PyVal → Except PyErr (List (List ℚ))
  | .list l => l.mapM linspaceOf
  | .num _ => .error .typeError

/-- Python dict assignment `d[k] = v` on an insertion-ordered dictionary
represented as an association list: an existing key keeps its position
and gets the new value, a fresh key is appended at the end. -/
def dictInsert {α β : Type} [DecidableEq α] (d : List (α × β)) (k : α)
    (v : β) : List (α × β) :=
  if d.any fun p => decide (p.1 = k) then
    d.map fun p => if p.1 = k then (k, v) else p
  else d ++ [(k, v)]

/-- Python dict subscript `d[k]` as an option. -/
def dictLookup {α β : Type} [DecidableEq α] (d : List (α × β)) (k : α) :
    Option β :=
  (d.find? fun p => decide (p.1 = k)).map Prod.snd

/-- Mutable accumulator of the `LoadedParams.__init__` loop: the `solo`,
`prod` and `zip` dictionaries plus the `zip_lens` list. -/
structure LPAcc where
  solo : List (String × PyVal)
  prod : List (String × PyVal)
  zipd : List (String × PyVal)
  zip_lens : List Nat

/-- One iteration of the `LoadedParams.__init__` loop over `params`:
sanity-check the parameter, then dispatch on its `cycle`, raising
`RuntimeError` for an unknown label. -/
def lpStep (model_len : Nat) (acc : LPAcc) (p : String × ParamData) :
    Except PyErr LPAcc := do
  let _ ← assert_parameter p.1 p.2 model_len
  if p.2.cycle = "solo" then
    .ok ⟨dictInsert acc.solo p.1 p.2.vals, acc.prod, acc.zipd, acc.zip_lens⟩
  else if p.2.cycle = "zip" then do
    let n ← pyLen p.2.vals
    .ok ⟨acc.solo, acc.prod, dictInsert acc.zipd p.1 p.2.vals,
      acc.zip_lens ++ [n]⟩
  else if p.2.cycle = "prod" then
    .ok ⟨acc.solo, dictInsert acc.prod p.1 p.2.vals, acc.zipd, acc.zip_lens⟩
  else if p.2.cycle = "prod-linspace" then do
    let rows ← linspaceRows p.2.vals
    let dat := (rows.map fun r => r.map np_round3).transpose
    .ok ⟨acc.solo,
      dictInsert acc.prod p.1
        (PyVal.list (dat.map fun row => PyVal.list (row.map PyVal.num))),
      acc.zipd, acc.zip_lens⟩
  else .error (.runtimeError ("Unknown cycle " ++ p.2.cycle))

/-- Evaluation of `all([zip_lens[ii] == zip_lens[ii + 1] for ii in
range(len(zip_lens) - 1)])`. -/
def consecEqNat (l : List Nat) : Bool :=
  (List.range (l.length - 1)).all fun ii =>
    decide (l.getD ii 0 = l.getD (ii + 1) 0)

/-- Cartesian product of the `prod` value lists, rightmost factor varying
fastest as in `itertools.product`. -/
def cartesianProd : List (List PyVal) → List (List PyVal)
  | [] => [[]]
  | l :: rest => l.flatMap fun x => (cartesianProd rest).map fun c => x :: c

/-- State of a constructed `LoadedParams` object. -/
structure LoadedParamsData where
  model : List PyVal
  info : PyVal
  solo : List (String × PyVal)
  prod : List (String × PyVal)
  zipd : List (String × PyVal)
  master : List (Option Nat × List PyVal)
  counter_max : Nat

/-- Embedding of `LoadedParams.__init__`: the per-parameter loop, the
zip-length assert, the `zip_indexes` construction (with the `IndexError`
fallback to `[None]` when no zip parameter exists), and the
`itertools.product` master list. -/
def loadedParams (model : List PyVal) (info : PyVal)
    (params : List (String × ParamData)) : Except PyErr LoadedParamsData := do
  let acc ← params.foldlM (lpStep model.length) ⟨[], [], [], []⟩
  let _ ← passert (consecEqNat acc.zip_lens)
  let zip_indexes : List (Option Nat) :=
    match acc.zip_lens with
    | [] => [Option.none]
    | n :: _ => (List.range n).map Option.some
  let rows ← acc.prod.mapM fun p => pyElems p.2
  let master := zip_indexes.flatMap fun zi =>
    (cartesianProd rows).map fun combo => (zi, combo)
  .ok ⟨model, info, acc.solo, acc.prod, acc.zipd, master, master.length⟩

/-- Argument delta required of a referenced equation: a concrete integer
vector (the Python code stores it as a small `np.array` and compares it
by value, via tuples). -/
abbrev Delta := List Int

/-- Modelled from the spec: a fully specific equation as exposed by the
missing `ggce.engine.equations` module after `_init_full` — its own
identity `index_term.id()` and the identities `term.id()` of the terms on
its right-hand side (`_terms_list`). -/
structure SpecEq where
  index_id : String
  terms_ids : List String
deriving DecidableEq

/-- Modelled from the spec: the interface of a generalized equation from
the missing `ggce.engine.equations` module — the phonon-configuration
identity `index_term._get_phonon_config_id()` used as the master-list
key, the argument-requirement map `_f_arg_terms` (referenced identity to
list of deltas), and the binding operation that deep-copies the equation
and applies `_init_full` with one concrete delta, yielding a specific
equation.  Binding is a pure function here, which is exactly the
value-semantics reading the spec prescribes for the deep-copy step. -/
structure GenEq where
  n_mat_id : String
  f_arg_terms : List (String × List Delta)
  bind : Delta → SpecEq

/-- The part of the Hamiltonian the engine inspects: its spatial
dimensionality. -/
structure Hamiltonian where
  dimension : Nat

/-- Modelled from the spec: the external `Model` collaborator consumed by
`ggce.engine.system.System` — the truncation parameters read by
`generate_all_legal_configurations`, the dimensionality, and the equation
constructors `Equation.from_config` / `GreenEquation` together with the
closed-form count `total_generalized_equations` from the missing
`ggce.utils.combinatorics` module (kept abstract: the engine only
compares against its value). -/
structure PModel where
  phonon_absolute_extent : Nat
  phonon_max_per_site : Option Nat
  phonon_extent : List Nat
  phonon_number : List Nat
  n_phonon_types : Nat
  hamiltonian : Hamiltonian
  from_config : List (List Nat) → GenEq
  green : GenEq
  total_generalized : List Nat → List Nat → Nat → Nat

/-- Modelled from the spec: `ggce.engine.terms.config_legal` — a
configuration (occupation matrix, boson types by rows and cloud sites by
columns) is legal iff no site's total occupation exceeds the optional
per-site cap and the cloud boundary is tight: both the first and the last
column carry at least one boson of some type.  The `phonon_extent`
argument is part of the call signature in the source; the spec's legality
definition does not constrain it and no claim depends on it. -/
def config_legal (cc : List (List Nat)) (max_phonons_per_site : Option Nat)
    ( _phonon_extent : List Nat) : Bool :=
  let sums := (List.transpose cc).map List.sum
  (match max_phonons_per_site with
    | none => true
    | some cap => sums.all fun s => decide (s ≤ cap))
  && decide (0 < sums.headD 0) && decide (0 < sums.getLastD 0)

/-- Evaluation of `np.array(cc).reshape(n_phonon_types, -1)` on a flat
tuple of length `t * z`, row-major as in numpy: row `i` holds the entries
`i*z` through `i*z + z - 1`. -/
def reshape_rows (t z : Nat) (l : List Nat) : List (List Nat) :=
  (List.range t).map fun i => (l.drop (i * z)).take z

/-- The fatal outcomes of `System.__init__`: `logger.critical` on more
than one dimension, a Python `KeyError` when an equation's identity is
missing from the master argument list, and `logger.critical` on a closure
mismatch.  Modelled from the spec: the missing logger module makes
`logger.critical` abort (spec section 7 lists these as fatal), while
`logger.error` and `logger.info` merely record entries. -/
inductive SysError where
  | dimensionError : SysError
  | keyError : String → SysError
  | closureError : SysError
deriving DecidableEq

/-- Log levels of the non-fatal logger calls reached by the pipeline. -/
inductive LogLevel where
  | info : LogLevel
  | errorL : LogLevel
deriving DecidableEq

/-- One diagnostic record emitted by the pipeline. -/
structure LogEntry where
  level : LogLevel
  msg : String
deriving DecidableEq

/-- Embedding of `ggce.engine.system.generate_all_legal_configurations`:
fatal on dimensionality above one, otherwise for every phonon total `nb`
from 1 to the sum of `phonon_number` and every cloud width `z` from 1 to
the absolute extent, enumerate `config_space_gen (z * n_phonon_types) nb`,
reshape row-major, filter by legality, and group by `nb`. -/
def generate_all_legal_configurations (m : PModel) :
    Except SysError (List (Nat × List (List (List Nat)))) :=
  if 1 < m.hamiltonian.dimension then .error .dimensionError
  else
    let nb_max := m.phonon_number.sum
    .ok ((List.range nb_max).map fun i =>
      let nb := i + 1
      (nb, (List.range m.phonon_absolute_extent).flatMap fun zi =>
        let z := zi + 1
        ((config_space_gen (z * m.n_phonon_types) nb).map
            (reshape_rows m.n_phonon_types z)).filter
          fun cc => config_legal cc m.phonon_max_per_site m.phonon_extent))

/-- One delta appended under one key of the master argument list, as in
the inner loop of `System._append_master_dictionary`: an existing key
gets the delta appended to its list, a missing key is created. -/
def assocAppendDelta (mst : List (String × List Delta)) (k : String)
    (d : Delta) : List (String × List Delta) :=
  if mst.any fun p => decide (p.1 = k) then
    mst.map fun p => if p.1 = k then (p.1, p.2 ++ [d]) else p
  else mst ++ [(k, [d])]

/-- Embedding of `System._append_master_dictionary`: the first equation's
argument map is copied wholesale (`deepcopy`), every later equation's
deltas are appended key by key. -/
def append_master (mst : Option (List (String × List Delta)))
    (fat : List (String × List Delta)) : List (String × List Delta) :=
  match mst with
  | none => fat
  | some m0 =>
      fat.foldl (fun acc kv => kv.2.foldl (fun a d => assocAppendDelta a kv.1 d) acc) m0

/-- Embedding of the construction part of
`System._initialize_generalized_equations`: build one generalized
equation per legal configuration bucket by bucket (accumulating the
master argument list), append the Green equation's requirements, file the
Green equation alone under the new key 0, and deduplicate every master
delta list (`_determine_unique_dictionary`; Python materializes a `set`
whose iteration order is unspecified, modelled here by `List.dedup` — no
claim depends on more than the membership and cardinality of the result). -/
def build_gen_eqs (m : PModel) (allowed : List (Nat × List (List (List Nat)))) :
    List (Nat × List GenEq) × List (String × List Delta) :=
  let genEqs := allowed.map fun p => (p.1, p.2.map m.from_config)
  let master0 : Option (List (String × List Delta)) :=
    genEqs.foldl
      (fun acc p => p.2.foldl (fun a g => some (append_master a g.f_arg_terms)) acc)
      none
  let master1 := append_master master0 m.green.f_arg_terms
  let genEqs2 := dictInsert genEqs 0 [m.green]
  (genEqs2, master1.map fun kv => (kv.1, kv.2.dedup))

/-- Embedding of `System._predict_total_terms`: purely diagnostic — when
the model has one boson type and no per-site cap, compare the generated
generalized-equation count against the analytic formula (plus one for the
Green's function) and log at error level on mismatch, info otherwise. -/
def predict_total_terms (m : PModel) (genEqs : List (Nat × List GenEq)) :
    List LogEntry :=
  let L := (genEqs.map fun p => p.2.length).sum
  if m.n_phonon_types = 1 ∧ m.phonon_max_per_site = none then
    let T := 1 + m.total_generalized m.phonon_extent m.phonon_number
      m.n_phonon_types
    if L = T then
      [⟨.info, "Predicted generalized equations (agrees with analytic formula)"⟩]
    else
      [⟨.errorL, "Predicted generalized equations from analytic equation mismatch"⟩]
  else [⟨.info, "Predicted generalized equations"⟩]

/-- Embedding of `System._get_total_terms`: the sum over all keys of the
deduplicated master argument list of their delta-list lengths. -/
def get_total_terms (master : List (String × List Delta)) : Nat :=
  (master.map fun kv => kv.2.length).sum

/-- Expansion of one bucket of generalized equations, as in the inner
loop of `System._initialize_equations`: for each equation look up its
identity in the master list (a missing key is Python's fatal `KeyError`)
and bind a deep copy to every delta, in order. -/
def expand_bucket (master : List (String × List Delta)) :
    List GenEq → Except SysError (List SpecEq)
  | [] => .ok []
  | g :: gs =>
      match dictLookup master g.n_mat_id with
      | none => .error (.keyError g.n_mat_id)
      | some ds => do
          let rest ← expand_bucket master gs
          .ok (ds.map g.bind ++ rest)

/-- Expansion of every bucket in order, preserving the bucket keys. -/
def expand_all (master : List (String × List Delta)) :
    List (Nat × List GenEq) → Except SysError (List (Nat × List SpecEq))
  | [] => .ok []
  | p :: ps => do
      let b ← expand_bucket master p.2
      let rest ← expand_all master ps
      .ok ((p.1, b) :: rest)

/-- Embedding of `System._initialize_equations`: expand every bucket and
compare the generated total against `_get_total_terms`, logging at error
level on mismatch (non-fatal) and info otherwise. -/
def expand_eqs (genEqs : List (Nat × List GenEq))
    (master : List (String × List Delta)) :
    Except SysError (List (Nat × List SpecEq) × List LogEntry) := do
  let totals := get_total_terms master
  let eqs ← expand_all master genEqs
  let L := (eqs.map fun p => p.2.length).sum
  let log := if L = totals then
      [LogEntry.mk .info "Generated total equations"]
    else
      [LogEntry.mk .errorL "Predicted equations from generalized form mismatch"]
  .ok (eqs, log)

/-- The identities defined by the specific equations
(`eq.index_term.id()` over every equation of every bucket). -/
def defined_ids (eqs : List (Nat × List SpecEq)) : List String :=
  eqs.flatMap fun p => p.2.map SpecEq.index_id

/-- The identities referenced on any right-hand side (`term.id()` over
every term of every specific equation). -/
def referenced_ids (eqs : List (Nat × List SpecEq)) : List String :=
  eqs.flatMap fun p => p.2.flatMap SpecEq.terms_ids

/-- Embedding of `System._final_checks`: compare the two identity sets;
equality logs an info record, inequality is `logger.critical` — fatal. -/
def final_checks (eqs : List (Nat × List SpecEq)) :
    Except SysError (List LogEntry) :=
  if (defined_ids eqs).toFinset = (referenced_ids eqs).toFinset then
    .ok [⟨.info, "Closure checked and valid"⟩]
  else .error .closureError

/-- State of a successfully constructed `System`. -/
structure SystemS where
  generalized_equations : List (Nat × List GenEq)
  equations : List (Nat × List SpecEq)
  master : List (String × List Delta)

/-- Embedding of `System.__init__`: enumerate legal configurations, build
the generalized equations and master list, run the diagnostic count
prediction, expand, and run the final closure check; the accumulated log
is returned alongside the state. -/
def system_init (m : PModel) : Except SysError (SystemS × List LogEntry) := do
  let allowed ← generate_all_legal_configurations m
  let be := build_gen_eqs m allowed
  let log1 := predict_total_terms m be.1
  let el ← expand_eqs be.1 be.2
  let log3 ← final_checks el.1
  .ok (⟨be.1, el.1, be.2⟩, log1 ++ el.2 ++ log3)

/-- The same pipeline with the two diagnostic count comparisons removed
(no call to `_predict_total_terms`, no generated-vs-predicted comparison
after expansion); enumeration, construction, expansion and the fatal
closure check are untouched.  Used to state that the diagnostics never
affect the pipeline's outcome. -/
def system_init_nochecks (m : PModel) : Except SysError SystemS := do
  let allowed ← generate_all_legal_configurations m
  let be := build_gen_eqs m allowed
  let eqs ← expand_all be.2 be.1
  let _ ← final_checks eqs
  .ok ⟨be.1, eqs, be.2⟩

/-- Whether `System.__init__` succeeds. -/
def init_ok (m : PModel) : Bool :=
  match system_init m with
  | .ok _ => true
  | .error _ => false

/-- The constructed system (junk default on the error path, which the
theorems exclude by hypothesis). -/
def init_system (m : PModel) : SystemS :=
  match system_init m with
  | .ok p => p.1
  | .error _ => ⟨[], [], []⟩

/-- The log of a successful construction. -/
def init_log (m : PModel) : List LogEntry :=
  match system_init m with
  | .ok p => p.2
  | .error _ => []

/-- The generalized-equation buckets as they stand right after
`_initialize_generalized_equations` (before expansion). -/
def gen_phase (m : PModel) : Option (List (Nat × List GenEq)) :=
  match generate_all_legal_configurations m with
  | .error _ => none
  | .ok allowed => some (build_gen_eqs m allowed).1

/-- The fully expanded equations as they stand right before
`_final_checks`. -/
def pre_closure_equations (m : PModel) : Option (List (Nat × List SpecEq)) :=
  match generate_all_legal_configurations m with
  | .error _ => none
  | .ok allowed =>
      match expand_all (build_gen_eqs m allowed).2 (build_gen_eqs m allowed).1 with
      | .error _ => none
      | .ok eqs => some eqs

/-- Whether the generalized-equation count disagrees with the analytic
prediction (only checked for one boson type and no per-site cap, as in
the source). -/
def gen_count_mismatch (m : PModel) : Bool :=
  match gen_phase m with
  | none => false
  | some genEqs =>
      if m.n_phonon_types = 1 ∧ m.phonon_max_per_site = none then
        decide (((genEqs.map fun p => p.2.length).sum)
          ≠ 1 + m.total_generalized m.phonon_extent m.phonon_number
              m.n_phonon_types)
      else false

/-- Whether the fully expanded equation count disagrees with
`_get_total_terms`. -/
def expand_count_mismatch (m : PModel) : Bool :=
  match generate_all_legal_configurations m with
  | .error _ => false
  | .ok allowed =>
      match expand_all (build_gen_eqs m allowed).2 (build_gen_eqs m allowed).1 with
      | .error _ => false
      | .ok eqs =>
          decide (((eqs.map fun p => p.2.length).sum)
            ≠ get_total_terms (build_gen_eqs m allowed).2)

/-- The `index_term._get_phonon_config_id()` identities of all
generalized equations, in bucket order. -/
def all_gen_ids (genEqs : List (Nat × List GenEq)) : List String :=
  genEqs.flatMap fun p => p.2.map GenEq.n_mat_id

/-- Total lookup in the master list (default empty), used to state what
expansion produced once success guarantees every key is present. -/
def dictLookupD (master : List (String × List Delta)) (k : String) :
    List Delta :=
  (dictLookup master k).getD []

/-- Embedding of `System.get_basis(full_basis=True)`: one flat dictionary
assigning the running counter `cc` to each specific equation's identity,
walking the buckets in their storage order. -/
def get_basis_full (eqs : List (Nat × List SpecEq)) : List (String × Nat) :=
  ((eqs.flatMap fun p => p.2).foldl
    (fun acc eq => (dictInsert acc.1 eq.index_id acc.2, acc.2 + 1))
    (([] : List (String × Nat)), 0)).1

/-- Embedding of `System.get_basis(full_basis=False)`: a dictionary keyed
by phonon count, each bucket mapping its equations' identities to their
enumeration index within the bucket. -/
def get_basis_local (eqs : List (Nat × List SpecEq)) :
    List (Nat × List (String × Nat)) :=
  eqs.foldl
    (fun acc p =>
      dictInsert acc p.1
        ((p.2.enum).foldl (fun d q => dictInsert d q.2.index_id q.1) []))
    []

/-- One-type, extent-1, one-phonon toy instance of the missing equation
module used by the witnesses: the single legal configuration `[[1]]`
yields the equation with identity `F` requiring delta `[0]` of both
itself and the Green identity `G`; binding produces specific identities
`F0` and `G0` that close on each other. -/
def toyFrom : List (List Nat) → GenEq :=
  fun _ => ⟨"F", [("F", [[0]]), ("G", [[0]])], fun _ => ⟨"F0", ["F0", "G0"]⟩⟩

/-- Green's-function equation of the toy instance. -/
def toyGreen : GenEq := ⟨"G", [("F", [[0]])], fun _ => ⟨"G0", ["F0"]⟩⟩

/-- The toy model: one boson type, absolute extent 1, one phonon, no
per-site cap, one dimension; the analytic count is 1 so the prediction
agrees (1 + 1 generalized equations). -/
def toyModel : PModel :=
  ⟨1, none, [1], [1], 1, ⟨1⟩, toyFrom, toyGreen, fun _ _ _ => 1⟩

/-- Toy model whose analytic formula deliberately disagrees with the
enumerated generalized-equation count, to exhibit the non-fatal warning. -/
def toyMismatch : PModel :=
  ⟨1, none, [1], [1], 1, ⟨1⟩, toyFrom, toyGreen, fun _ _ _ => 5⟩

/-- Toy model whose Green equation requires a delta of an identity `H`
defined by no equation: expansion succeeds (no equation has identity `H`,
so the orphan key is never looked up) and closure still holds, but the
expanded count 2 differs from the predicted total 3, exhibiting the
second non-fatal warning. -/
def toyExpandMismatch : PModel :=
  ⟨1, none, [1], [1], 1, ⟨1⟩, toyFrom,
    ⟨"G", [("F", [[0]]), ("H", [[0]])], fun _ => ⟨"G0", ["F0"]⟩⟩,
    fun _ _ _ => 1⟩

/-- Toy model whose Green equation references an identity `X0` defined by
no equation, so the closure check fails. -/
def toyBadClosure : PModel :=
  ⟨1, none, [1], [1], 1, ⟨1⟩, toyFrom,
    ⟨"G", [("F", [[0]])], fun _ => ⟨"G0", ["X0"]⟩⟩,
    fun _ _ _ => 1⟩

/-- Toy model declaring two spatial dimensions. -/
def toyDim2 : PModel :=
  ⟨1, none, [1], [1], 1, ⟨2⟩, toyFrom, toyGreen, fun _ _ _ => 1⟩

end GGCE

namespace GGCE

theorem lexLt_irrefl : ∀ l : List Nat, lexLt l l = false := by
  intro l
  induction l with
  | nil => rfl
  | cons a as ih => simp [lexLt, ih]

theorem lexLt_cons_lt {a b : Nat} (as bs : List Nat) (h : a < b) :
    lexLt (a :: as) (b :: bs) = true := by
  simp [lexLt, h]

theorem lexLt_cons_same {a : Nat} {as bs : List Nat} (h : lexLt as bs = true) :
    lexLt (a :: as) (a :: bs) = true := by
  simp [lexLt, h]

/-- Hockey-stick identity used to count the generator's output. -/
theorem sum_choose_hockey (n : Nat) :
    ∀ t : Nat, (∑ j ∈ Finset.range (t + 1), (j + n).choose n)
      = (t + n + 1).choose (n + 1) := by
  intro t
  induction t with
  | zero =>
      simp [Nat.choose_self, Nat.choose_succ_self_right]
  | succ t ih =>
      rw [Finset.sum_range_succ, ih]
      have h : (t + n + 1 + 1).choose (n + 1)
          = (t + n + 1).choose n + (t + n + 1).choose (n + 1) :=
        Nat.choose_succ_succ (t + n + 1) n
      have e1 : t + 1 + n = t + n + 1 := by omega
      rw [e1, h]
      omega

theorem sum_map_range_eq (f : Nat → Nat) (n : Nat) :
    ((List.range n).map f).sum = ∑ i ∈ Finset.range n, f i := by
  induction n with
  | zero => simp
  | succ n ih =>
      rw [List.range_succ, List.map_append, List.sum_append,
        Finset.sum_range_succ, ih]
      simp

theorem config_space_gen_length (n : Nat) :
    ∀ total : Nat,
      (config_space_gen (n + 1) total).length = (total + n).choose n := by
  induction n with
  | zero => intro total; simp [config_space_gen]
  | succ n ih =>
      intro total
      rw [show n + 1 + 1 = n + 2 from rfl]
      rw [config_space_gen, List.length_flatMap]
      have hfun : (List.length ∘ fun value =>
            (config_space_gen (n + 1) (total - value)).map
              fun permutation => value :: permutation)
          = fun value => (total - value + n).choose n := by
        funext v
        simp [List.length_map, ih]
      rw [hfun, sum_map_range_eq]
      have h2 : (∑ v ∈ Finset.range (total + 1), (total - v + n).choose n)
          = ∑ j ∈ Finset.range (total + 1), (j + n).choose n := by
        have := Finset.sum_range_reflect (fun j => (j + n).choose n) (total + 1)
        have hco : ∀ v ∈ Finset.range (total + 1),
            (total - v + n).choose n = (total + 1 - 1 - v + n).choose n := by
          intro v _
          congr 2
        rw [Finset.sum_congr rfl hco]
        exact this
      rw [h2, sum_choose_hockey]
      congr 1

theorem config_space_gen_shape (n : Nat) :
    ∀ total : Nat, ∀ l ∈ config_space_gen (n + 1) total,
      l.length = n + 1 ∧ l.sum = total := by
  induction n with
  | zero =>
      intro total l hl
      simp only [config_space_gen, List.mem_singleton] at hl
      subst hl
      simp
  | succ n ih =>
      intro total l hl
      rw [show n + 1 + 1 = n + 2 from rfl, config_space_gen,
        List.mem_flatMap] at hl
      obtain ⟨v, hv, hmap⟩ := hl
      rw [List.mem_map] at hmap
      obtain ⟨p, hp, rfl⟩ := hmap
      obtain ⟨hlen, hsum⟩ := ih (total - v) p hp
      rw [List.mem_range] at hv
      constructor
      · simp [hlen]
      · simp only [List.sum_cons, hsum]
        omega

theorem config_space_gen_complete (n : Nat) :
    ∀ total : Nat, ∀ l : List Nat, l.length = n + 1 → l.sum = total →
      l ∈ config_space_gen (n + 1) total := by
  induction n with
  | zero =>
      intro total l hlen hsum
      match l, hlen with
      | [a], _ =>
        simp only [List.sum_cons, List.sum_nil, Nat.add_zero] at hsum
        subst hsum
        simp [config_space_gen]
  | succ n ih =>
      intro total l hlen hsum
      match l, hlen with
      | a :: rest, hlen =>
        have hrl : rest.length = n + 1 := by
          simpa using hlen
        have hrs : rest.sum = total - a := by
          simp only [List.sum_cons] at hsum
          omega
        have hale : a ≤ total := by
          simp only [List.sum_cons] at hsum
          omega
        rw [show n + 1 + 1 = n + 2 from rfl, config_space_gen,
          List.mem_flatMap]
        refine ⟨a, ?_, ?_⟩
        · rw [List.mem_range]; omega
        · rw [List.mem_map]
          exact ⟨rest, ih (total - a) rest hrl hrs, rfl⟩

theorem config_space_gen_pairwise (n : Nat) :
    ∀ total : Nat,
      List.Pairwise (fun x y => lexLt x y = true)
        (config_space_gen (n + 1) total) := by
  induction n with
  | zero =>
      intro total
      simp [config_space_gen]
  | succ n ih =>
      intro total
      rw [show n + 1 + 1 = n + 2 from rfl, config_space_gen,
        List.flatMap_def, List.pairwise_flatten]
      constructor
      · intro block hblock
        rw [List.mem_map] at hblock
        obtain ⟨v, _, rfl⟩ := hblock
        rw [List.pairwise_map]
        exact (ih (total - v)).imp fun h => lexLt_cons_same h
      · rw [List.pairwise_map]
        have := List.pairwise_lt_range (total + 1)
        refine this.imp ?_
        intro v w hvw x hx y hy
        rw [List.mem_map] at hx hy
        obtain ⟨p, _, rfl⟩ := hx
        obtain ⟨q, _, rfl⟩ := hy
        exact lexLt_cons_lt p q hvw

theorem config_space_gen_nodup (n : Nat) (total : Nat) :
    (config_space_gen (n + 1) total).Nodup := by
  refine (config_space_gen_pairwise n total).imp ?_
  intro x y hxy
  intro heq
  subst heq
  rw [lexLt_irrefl] at hxy
  exact Bool.false_ne_true hxy

/-- C2: for every `length ≥ 1` and `total ≥ 0`, `config_space_gen length
total` yields exactly `C(total + length - 1, length - 1)` tuples, each of
length `length`, each of non-negative integers summing to `total`, with no
tuple yielded twice, and every such tuple yielded; the base case
`length = 1` yields exactly the singleton `(total,)`.  Re-invocation
determinism is intrinsic to the embedding: the generator is stateless, so
its yielded sequence is the value of a pure function of its arguments. -/
theorem config_space_gen_partition_spec (length total : Nat)
    (h : 1 ≤ length) :
    (config_space_gen length total).length
        = Nat.choose (total + length - 1) (length - 1)
    ∧ (∀ l ∈ config_space_gen length total, l.length = length ∧ l.sum = total)
    ∧ (config_space_gen length total).Nodup
    ∧ (∀ l : List Nat, l.length = length → l.sum = total →
        l ∈ config_space_gen length total)
    ∧ config_space_gen 1 total = [[total]] := by
  obtain ⟨n, rfl⟩ : ∃ n, length = n + 1 := ⟨length - 1, by omega⟩
  refine ⟨?_, config_space_gen_shape n total, config_space_gen_nodup n total,
    config_space_gen_complete n total, rfl⟩
  rw [config_space_gen_length n total]
  congr 1

/-- Witness for C2 at `length = 2`, `total = 2`: the hypothesis is
discharged concretely and the generator's output is evaluated. -/
theorem config_space_gen_partition_spec_witness :
    ((config_space_gen 2 2).length = Nat.choose (2 + 2 - 1) (2 - 1)
      ∧ (∀ l ∈ config_space_gen 2 2, l.length = 2 ∧ l.sum = 2)
      ∧ (config_space_gen 2 2).Nodup
      ∧ (∀ l : List Nat, l.length = 2 → l.sum = 2 → l ∈ config_space_gen 2 2)
      ∧ config_space_gen 1 2 = [[2]])
    ∧ config_space_gen 2 2 = [[0, 2], [1, 1], [2, 0]] :=
  ⟨config_space_gen_partition_spec 2 2 (by decide), by decide⟩

/-- C10: for every `length ≥ 1` and `total ≥ 0`, the sequence yielded by
`config_space_gen length total` is strictly increasing in lexicographic
order (the first element ascends from `0` to `total`, the remainder is
generated recursively in the same order), so the generation order that the
bucket contents and basis indices depend on is a fixed deterministic
order. -/
theorem config_space_gen_lex_order (length total : Nat) (h : 1 ≤ length) :
    List.Pairwise (fun x y => lexLt x y = true)
      (config_space_gen length total) := by
  obtain ⟨n, rfl⟩ : ∃ n, length = n + 1 := ⟨length - 1, by omega⟩
  exact config_space_gen_pairwise n total

/-- Witness for C10 at `length = 3`, `total = 2`. -/
theorem config_space_gen_lex_order_witness :
    List.Pairwise (fun x y => lexLt x y = true) (config_space_gen 3 2) :=
  config_space_gen_lex_order 3 2 (by decide)

end GGCE

namespace GGCE

theorem error_bind {ε α β : Type} (e : ε) (f : α → Except ε β) :
    (Except.error e >>= f) = Except.error e := rfl

theorem ok_bind {ε α β : Type} (a : α) (f : α → Except ε β) :
    (Except.ok a >>= f) = f a := rfl

/-- C8 counterexample: the claim states that every `coupling_type` outside
`H`, `EFB`, `SSH`, `bondSSH` makes `model_coupling_map` raise a
`RuntimeError`, but when `ignore` is true the function returns the given
`lam` before ever inspecting the label: at the concrete input
`("XYZ", 1, 1, 5, ignore=True)` no error is raised. -/
theorem unknown_label_errors_counterexample :
    model_coupling_map "XYZ" 1 1 5 true = .ok (.plain 5) := rfl

/-- C8 (amended): with `ignore` false, every `coupling_type` outside
`H`, `EFB`, `SSH`, `bondSSH` makes `model_coupling_map` raise
`RuntimeError`; every model label outside that set makes
`SystemParams._extend_terms` raise `RuntimeError`; and `LoadedParams`
construction raises `RuntimeError` for every parameter whose cycle label
is outside the recognized set — `solo`, `zip`, `prod`, `prod-linspace`
in general (provided, for list-shaped parameter names, that `vals` is a
list, since the `isinstance` assert precedes the cycle dispatch there),
and `solo`, `zip`, `prod` for the scalar parameter names. -/
theorem unknown_label_errors :
    (∀ ct : String, ∀ t Omega lam : ℚ,
        ct ∉ (["H", "EFB", "SSH", "bondSSH"] : List String) →
        model_coupling_map ct t Omega lam false
          = .error (.runtimeError ("Unknown coupling_type type " ++ ct)))
    ∧ (∀ terms : List SingleTerm, ∀ m : String, ∀ g : ℚ, ∀ bt : Nat,
        m ∉ (["H", "EFB", "SSH", "bondSSH"] : List String) →
        extend_terms terms m g bt
          = .error (.runtimeError "Unknown model type when setting terms"))
    ∧ (∀ model : List PyVal, ∀ info : PyVal, ∀ name : String,
        ∀ data : ParamData,
        data.cycle ∉ (["solo", "zip", "prod", "prod-linspace"] : List String) →
        (name ∈ listParamNames → data.vals.isList = true) →
        ∃ msg, loadedParams model info [(name, data)]
          = .error (.runtimeError msg))
    ∧ (∀ model : List PyVal, ∀ info : PyVal, ∀ name : String,
        ∀ data : ParamData, name ∈ scalarParamNames →
        data.cycle ∉ (["solo", "zip", "prod"] : List String) →
        ∃ msg, loadedParams model info [(name, data)]
          = .error (.runtimeError msg)) := by
  refine ⟨?_, ?_, ?_, ?_⟩
  · intro ct t Omega lam h
    simp only [List.mem_cons, List.not_mem_nil, or_false, not_or] at h
    obtain ⟨h1, h2, h3, h4⟩ := h
    simp [model_coupling_map, h1, h2, h3, h4]
  · intro terms m g bt h
    simp only [List.mem_cons, List.not_mem_nil, or_false, not_or] at h
    obtain ⟨h1, h2, h3, h4⟩ := h
    simp [extend_terms, h1, h2, h3, h4]
  · intro model info name data hcyc hlist
    simp only [List.mem_cons, List.not_mem_nil, or_false, not_or] at hcyc
    obtain ⟨c1, c2, c3, c4⟩ := hcyc
    by_cases hname : name ∈ listParamNames
    · obtain ⟨l, hl⟩ : ∃ l, data.vals = PyVal.list l := by
        have := hlist hname
        cases hv : data.vals with
        | num q => rw [hv] at this; simp [PyVal.isList] at this
        | list l => exact ⟨l, rfl⟩
      refine ⟨"Unknown cycle: " ++ data.cycle, ?_⟩
      simp [loadedParams, lpStep, assert_parameter, hname, hl,
        c1, c2, c3, c4, List.foldlM, error_bind, ok_bind]
    · by_cases hname2 : name ∈ scalarParamNames
      · refine ⟨"Unknown cycle: " ++ data.cycle, ?_⟩
        simp [loadedParams, lpStep, assert_parameter, hname, hname2,
          c1, c2, c3, c4, List.foldlM, error_bind, ok_bind]
      · refine ⟨"Unknown cycle " ++ data.cycle, ?_⟩
        simp [loadedParams, lpStep, assert_parameter, hname, hname2,
          c1, c2, c3, c4, List.foldlM, error_bind, ok_bind]
  · intro model info name data hname hcyc
    simp only [List.mem_cons, List.not_mem_nil, or_false, not_or] at hcyc
    obtain ⟨c1, c2, c3⟩ := hcyc
    have hname1 : name ∉ listParamNames := by
      revert hname
      simp only [scalarParamNames, listParamNames, List.mem_cons,
        List.not_mem_nil, or_false]
      rintro (rfl | rfl | rfl | rfl | rfl) <;> simp
    refine ⟨"Unknown cycle: " ++ data.cycle, ?_⟩
    simp [loadedParams, lpStep, assert_parameter, hname, hname1,
      c1, c2, c3, List.foldlM, error_bind, ok_bind]

/-- Witness for C8 (amended) at concrete labels outside the recognized
sets, one per conjunct. -/
theorem unknown_label_errors_witness :
    model_coupling_map "XYZ" 1 1 5 false
        = .error (.runtimeError ("Unknown coupling_type type " ++ "XYZ"))
    ∧ extend_terms [] "XYZ" 1 0
        = .error (.runtimeError "Unknown model type when setting terms")
    ∧ (∃ msg, loadedParams [] (.num 0) [("Omega", ⟨.list [], "bogus"⟩)]
        = .error (.runtimeError msg))
    ∧ (∃ msg, loadedParams [] (.num 0) [("hopping", ⟨.num 1, "prod-linspace"⟩)]
        = .error (.runtimeError msg)) :=
  ⟨unknown_label_errors.1 "XYZ" 1 1 5 (by decide),
   unknown_label_errors.2.1 [] "XYZ" 1 0 (by decide),
   unknown_label_errors.2.2.1 [] (.num 0) "Omega" ⟨.list [], "bogus"⟩
     (by decide) (fun _ => rfl),
   unknown_label_errors.2.2.2 [] (.num 0) "hopping" ⟨.num 1, "prod-linspace"⟩
     (by decide) (by decide)⟩

end GGCE

namespace GGCE

theorem dictInsert_fresh {α β : Type} [DecidableEq α] (d : List (α × β))
    (k : α) (v : β) (h : k ∉ d.map Prod.fst) :
    dictInsert d k v = d ++ [(k, v)] := by
  unfold dictInsert
  rw [if_neg]
  intro hany
  rw [List.any_eq_true] at hany
  obtain ⟨p, hp, hpk⟩ := hany
  rw [decide_eq_true_eq] at hpk
  exact h (hpk ▸ List.mem_map_of_mem Prod.fst hp)

theorem dictLookup_append_right {α β : Type} [DecidableEq α]
    (d₁ d₂ : List (α × β)) (k : α) (h : k ∉ d₁.map Prod.fst) :
    dictLookup (d₁ ++ d₂) k = dictLookup d₂ k := by
  unfold dictLookup
  rw [List.find?_append]
  have hnone : d₁.find? (fun p => decide (p.1 = k)) = none := by
    rw [List.find?_eq_none]
    intro p hp
    simp only [decide_eq_true_eq]
    intro hpk
    exact h (hpk ▸ List.mem_map_of_mem Prod.fst hp)
  rw [hnone]
  rfl

theorem dictLookup_cons_self {α β : Type} [DecidableEq α] (d : List (α × β))
    (k : α) (v : β) : dictLookup ((k, v) :: d) k = some v := by
  unfold dictLookup
  simp [List.find?]

theorem generate_keys (m : PModel)
    (allowed : List (Nat × List (List (List Nat))))
    (h : generate_all_legal_configurations m = .ok allowed) :
    allowed.map Prod.fst
      = (List.range m.phonon_number.sum).map (fun i => i + 1) := by
  unfold generate_all_legal_configurations at h
  by_cases hd : 1 < m.hamiltonian.dimension
  · rw [if_pos hd] at h
    cases h
  · rw [if_neg hd] at h
    cases h
    rw [List.map_map]
    rfl

theorem generate_keys_ne_zero (m : PModel)
    (allowed : List (Nat × List (List (List Nat))))
    (h : generate_all_legal_configurations m = .ok allowed) :
    ∀ k ∈ allowed.map Prod.fst, k ≠ 0 := by
  rw [generate_keys m allowed h]
  intro k hk
  rw [List.mem_map] at hk
  obtain ⟨i, _, rfl⟩ := hk
  omega

theorem build_gen_eqs_append (m : PModel)
    (allowed : List (Nat × List (List (List Nat))))
    (h0 : ∀ k ∈ allowed.map Prod.fst, k ≠ 0) :
    (build_gen_eqs m allowed).1
      = (allowed.map fun p => (p.1, p.2.map m.from_config))
          ++ [(0, [m.green])] := by
  unfold build_gen_eqs
  apply dictInsert_fresh
  rw [List.map_map]
  intro hmem
  rw [List.mem_map] at hmem
  obtain ⟨p, hp, hfst⟩ := hmem
  exact h0 p.1 (List.mem_map_of_mem Prod.fst hp) hfst

/-- C7: with more than one spatial dimension,
`generate_all_legal_configurations` signals the fatal dimensionality
error (before any partition enumeration), and `System.__init__`
propagates it: no configurations and no equations are built. -/
theorem dimension_fatal (m : PModel) (h : 1 < m.hamiltonian.dimension) :
    generate_all_legal_configurations m = .error .dimensionError
    ∧ system_init m = .error .dimensionError := by
  have hg : generate_all_legal_configurations m = .error .dimensionError := by
    unfold generate_all_legal_configurations
    rw [if_pos h]
  refine ⟨hg, ?_⟩
  unfold system_init
  rw [hg]
  rfl

/-- Witness for C7 at the two-dimensional toy model. -/
theorem dimension_fatal_witness :
    generate_all_legal_configurations toyDim2 = .error .dimensionError
    ∧ system_init toyDim2 = .error .dimensionError :=
  dimension_fatal toyDim2 (by decide)

/-- C4: for every model accepted by the enumerator (dimensionality at
most one), after `_initialize_generalized_equations` the phonon-count-zero
bucket holds exactly the one distinguished Green's-function equation
constructed with no configuration, and no other equation is filed under
phonon count zero (key 0 occurs exactly once, last, carrying
`[m.green]`). -/
theorem green_bucket_unique (m : PModel)
    (h : m.hamiltonian.dimension ≤ 1) :
    ∃ gq, gen_phase m = some gq
      ∧ gq.filter (fun p => decide (p.1 = 0)) = [(0, [m.green])]
      ∧ dictLookup gq 0 = some [m.green] := by
  have hd : ¬1 < m.hamiltonian.dimension := by omega
  obtain ⟨allowed, hg⟩ : ∃ allowed,
      generate_all_legal_configurations m = .ok allowed := by
    unfold generate_all_legal_configurations
    rw [if_neg hd]
    exact ⟨_, rfl⟩
  have h0 := generate_keys_ne_zero m allowed hg
  have hb := build_gen_eqs_append m allowed h0
  refine ⟨(build_gen_eqs m allowed).1, ?_, ?_, ?_⟩
  · unfold gen_phase
    rw [hg]
  · rw [hb, List.filter_append]
    have h1 : (allowed.map fun p => (p.1, p.2.map m.from_config)).filter
        (fun p => decide (p.1 = 0)) = [] := by
      rw [List.filter_eq_nil_iff]
      intro p hp
      rw [List.mem_map] at hp
      obtain ⟨q, hq, rfl⟩ := hp
      simp only [decide_eq_true_eq]
      exact h0 q.1 (List.mem_map_of_mem Prod.fst hq)
    rw [h1]
    rfl
  · rw [hb, dictLookup_append_right]
    · exact dictLookup_cons_self [] 0 [m.green]
    · rw [List.map_map]
      intro hmem
      rw [List.mem_map] at hmem
      obtain ⟨p, hp, hfst⟩ := hmem
      exact h0 p.1 (List.mem_map_of_mem Prod.fst hp) hfst

/-- Witness for C4 at the one-dimensional toy model. -/
theorem green_bucket_unique_witness :
    ∃ gq, gen_phase toyModel = some gq
      ∧ gq.filter (fun p => decide (p.1 = 0)) = [(0, [toyModel.green])]
      ∧ dictLookup gq 0 = some [toyModel.green] :=
  green_bucket_unique toyModel (by decide)

end GGCE

namespace GGCE

theorem expand_bucket_ok_eq (master : List (String × List Delta)) :
    ∀ l : List GenEq, ∀ b : List SpecEq,
      expand_bucket master l = .ok b →
      b = l.flatMap fun g => (dictLookupD master g.n_mat_id).map g.bind := by
  intro l
  induction l with
  | nil =>
      intro b h
      unfold expand_bucket at h
      cases h
      rfl
  | cons g gs ih =>
      intro b h
      unfold expand_bucket at h
      cases hl : dictLookup master g.n_mat_id with
      | none => rw [hl] at h; cases h
      | some ds =>
          simp only [hl] at h
          cases hr : expand_bucket master gs with
          | error e => simp only [hr, error_bind] at h; cases h
          | ok rest =>
              simp only [hr, ok_bind] at h
              cases h
              rw [List.flatMap_cons, ih rest hr]
              unfold dictLookupD
              rw [hl]
              rfl

theorem expand_bucket_ok_mem (master : List (String × List Delta)) :
    ∀ l : List GenEq, ∀ b : List SpecEq,
      expand_bucket master l = .ok b →
      ∀ g ∈ l, (dictLookup master g.n_mat_id).isSome = true := by
  intro l
  induction l with
  | nil => intro b _ g hg; cases hg
  | cons g0 gs ih =>
      intro b h g hg
      unfold expand_bucket at h
      cases hl : dictLookup master g0.n_mat_id with
      | none => rw [hl] at h; cases h
      | some ds =>
          simp only [hl] at h
          cases hr : expand_bucket master gs with
          | error e => simp only [hr, error_bind] at h; cases h
          | ok rest =>
              cases hg with
              | head => rw [hl]; rfl
              | tail _ hg2 => exact ih rest hr g hg2

theorem expand_all_ok_eq (master : List (String × List Delta)) :
    ∀ genEqs : List (Nat × List GenEq), ∀ eqs : List (Nat × List SpecEq),
      expand_all master genEqs = .ok eqs →
      eqs = genEqs.map fun p =>
        (p.1, p.2.flatMap fun g => (dictLookupD master g.n_mat_id).map g.bind) := by
  intro genEqs
  induction genEqs with
  | nil =>
      intro eqs h
      unfold expand_all at h
      cases h
      rfl
  | cons p ps ih =>
      intro eqs h
      unfold expand_all at h
      cases hb : expand_bucket master p.2 with
      | error e => simp only [hb, error_bind] at h; cases h
      | ok b =>
          simp only [hb, ok_bind] at h
          cases hr : expand_all master ps with
          | error e => simp only [hr, error_bind] at h; cases h
          | ok rest =>
              simp only [hr, ok_bind] at h
              cases h
              rw [List.map_cons, ih rest hr, expand_bucket_ok_eq master p.2 b hb]

theorem expand_all_ok_mem (master : List (String × List Delta)) :
    ∀ genEqs : List (Nat × List GenEq), ∀ eqs : List (Nat × List SpecEq),
      expand_all master genEqs = .ok eqs →
      ∀ s ∈ all_gen_ids genEqs, (dictLookup master s).isSome = true := by
  intro genEqs
  induction genEqs with
  | nil => intro eqs _ s hs; cases hs
  | cons p ps ih =>
      intro eqs h s hs
      unfold expand_all at h
      cases hb : expand_bucket master p.2 with
      | error e => simp only [hb, error_bind] at h; cases h
      | ok b =>
          simp only [hb, ok_bind] at h
          cases hr : expand_all master ps with
          | error e => simp only [hr, error_bind] at h; cases h
          | ok rest =>
              unfold all_gen_ids at hs
              rw [List.flatMap_cons, List.mem_append] at hs
              rcases hs with hs | hs
              · rw [List.mem_map] at hs
                obtain ⟨g, hg, rfl⟩ := hs
                exact expand_bucket_ok_mem master p.2 b hb g hg
              · exact ih rest hr s hs

theorem expand_eqs_eq (genEqs : List (Nat × List GenEq))
    (master : List (String × List Delta)) :
    expand_eqs genEqs master
      = match expand_all master genEqs with
        | .error e => .error e
        | .ok eqs => .ok (eqs,
            if (eqs.map fun p => p.2.length).sum = get_total_terms master then
              [LogEntry.mk .info "Generated total equations"]
            else
              [LogEntry.mk .errorL
                "Predicted equations from generalized form mismatch"]) := by
  unfold expand_eqs
  cases expand_all master genEqs <;> rfl

theorem system_init_ok_shape (m : PModel) (sys : SystemS)
    (log : List LogEntry) (h : system_init m = .ok (sys, log)) :
    ∃ allowed eqs log3,
      generate_all_legal_configurations m = .ok allowed
      ∧ expand_all (build_gen_eqs m allowed).2 (build_gen_eqs m allowed).1
          = .ok eqs
      ∧ final_checks eqs = .ok log3
      ∧ sys = ⟨(build_gen_eqs m allowed).1, eqs, (build_gen_eqs m allowed).2⟩
      ∧ log = predict_total_terms m (build_gen_eqs m allowed).1
          ++ (if (eqs.map fun p => p.2.length).sum
                = get_total_terms (build_gen_eqs m allowed).2 then
              [LogEntry.mk .info "Generated total equations"]
            else
              [LogEntry.mk .errorL
                "Predicted equations from generalized form mismatch"])
          ++ log3 := by
  unfold system_init at h
  cases hg : generate_all_legal_configurations m with
  | error e => simp only [hg, error_bind] at h; cases h
  | ok allowed =>
      simp only [hg, ok_bind] at h
      rw [expand_eqs_eq] at h
      cases he : expand_all (build_gen_eqs m allowed).2
          (build_gen_eqs m allowed).1 with
      | error e => simp only [he, error_bind] at h; cases h
      | ok eqs =>
          simp only [he, ok_bind] at h
          cases hf : final_checks eqs with
          | error e => simp only [hf, error_bind] at h; cases h
          | ok log3 =>
              simp only [hf, ok_bind] at h
              cases h
              exact ⟨allowed, eqs, log3, rfl, he, hf, rfl, rfl⟩

theorem init_ok_shape (m : PModel) (hok : init_ok m = true) :
    system_init m = .ok (init_system m, init_log m) := by
  unfold init_ok at hok
  cases hs : system_init m with
  | error e => rw [hs] at hok; cases hok
  | ok p =>
      unfold init_system init_log
      rw [hs]

/-- C1: for every successfully constructed `System`, the set of
identities defined by the specific equations equals the set of identities
referenced on any right-hand side; and whenever the pipeline reaches the
final check with differing sets, initialization aborts with the fatal
closure error instead of continuing. -/
theorem closure_exact (m : PModel) :
    (∀ sys : SystemS, ∀ log : List LogEntry,
      system_init m = .ok (sys, log) →
      (defined_ids sys.equations).toFinset
        = (referenced_ids sys.equations).toFinset)
    ∧ (∀ eqs : List (Nat × List SpecEq),
        pre_closure_equations m = some eqs →
        (defined_ids eqs).toFinset ≠ (referenced_ids eqs).toFinset →
        system_init m = .error .closureError) := by
  constructor
  · intro sys log h
    obtain ⟨allowed, eqs, log3, _, _, hf, hsys, _⟩ :=
      system_init_ok_shape m sys log h
    subst hsys
    unfold final_checks at hf
    by_cases hset : (defined_ids eqs).toFinset = (referenced_ids eqs).toFinset
    · exact hset
    · rw [if_neg hset] at hf
      cases hf
  · intro eqs hpre hne
    unfold pre_closure_equations at hpre
    cases hg : generate_all_legal_configurations m with
    | error e => simp only [hg] at hpre; cases hpre
    | ok allowed =>
        simp only [hg] at hpre
        cases he : expand_all (build_gen_eqs m allowed).2
            (build_gen_eqs m allowed).1 with
        | error e => simp only [he] at hpre; cases hpre
        | ok eqs0 =>
            simp only [he] at hpre
            cases hpre
            have hf : final_checks eqs = .error .closureError := by
              unfold final_checks
              rw [if_neg hne]
            unfold system_init
            simp only [hg, ok_bind]
            rw [expand_eqs_eq]
            simp only [he, ok_bind, hf, error_bind]

/-- Witness for C1: closure equality at the well-formed toy model, and
the fatal abort at the toy model whose Green equation references an
undefined identity. -/
theorem closure_exact_witness :
    (defined_ids (init_system toyModel).equations).toFinset
      = (referenced_ids (init_system toyModel).equations).toFinset
    ∧ system_init toyBadClosure = .error .closureError :=
  ⟨(closure_exact toyModel).1 (init_system toyModel) (init_log toyModel)
      (init_ok_shape toyModel rfl),
   (closure_exact toyBadClosure).2
      [(1, [⟨"F0", ["F0", "G0"]⟩]), (0, [⟨"G0", ["X0"]⟩])] rfl (by decide)⟩

/-- C9: expansion never mutates a generalized equation — the
generalized-equation buckets of the constructed system are exactly the
ones produced before expansion — and every bucket of specific equations
consists exactly of the values obtained by binding a copy of each of its
generalized equations to each of that identity's deduplicated argument
deltas, one specific equation per delta.  Sharing of mutable state is not
representable in this value-semantics embedding; the deep-copy discipline
of the source is captured by `GenEq.bind` being a pure function. -/
theorem expansion_pure (m : PModel) (hok : init_ok m = true) :
    gen_phase m = some (init_system m).generalized_equations
    ∧ (init_system m).equations
        = (init_system m).generalized_equations.map fun p =>
            (p.1, p.2.flatMap fun g =>
              (dictLookupD (init_system m).master g.n_mat_id).map g.bind) := by
  obtain ⟨allowed, eqs, log3, hg, he, _, hsys, _⟩ :=
    system_init_ok_shape m (init_system m) (init_log m) (init_ok_shape m hok)
  constructor
  · unfold gen_phase
    rw [hg, hsys]
  · rw [hsys]
    exact expand_all_ok_eq (build_gen_eqs m allowed).2
      (build_gen_eqs m allowed).1 eqs he

/-- Witness for C9 at the toy model. -/
theorem expansion_pure_witness :
    gen_phase toyModel = some (init_system toyModel).generalized_equations
    ∧ (init_system toyModel).equations
        = (init_system toyModel).generalized_equations.map fun p =>
            (p.1, p.2.flatMap fun g =>
              (dictLookupD (init_system toyModel).master g.n_mat_id).map
                g.bind) :=
  expansion_pure toyModel rfl

end GGCE

namespace GGCE

/-- C6: the two count comparisons (generalized-equation count against the
analytic prediction, checked only for a single boson type with no
per-site cap; and expanded-equation count against `_get_total_terms`) are
reported at error level in the log but never change the pipeline's
outcome: the construction result (including its success or failure) is
identical to that of the pipeline with both diagnostics removed, and on a
successful construction each mismatch leaves an error-level entry in the
log while expansion, closure verification and the basis all remain
available. -/
theorem count_warnings_nonfatal (m : PModel) :
    Except.map Prod.fst (system_init m) = system_init_nochecks m
    ∧ (init_ok m = true → gen_count_mismatch m = true →
        (init_log m).any (fun e => decide (e.level = LogLevel.errorL)) = true)
    ∧ (init_ok m = true → expand_count_mismatch m = true →
        (init_log m).any (fun e => decide (e.level = LogLevel.errorL)) = true) := by
  refine ⟨?_, ?_, ?_⟩
  · unfold system_init system_init_nochecks
    cases hg : generate_all_legal_configurations m with
    | error e => simp only [error_bind]; rfl
    | ok allowed =>
        simp only [ok_bind]
        rw [expand_eqs_eq]
        cases he : expand_all (build_gen_eqs m allowed).2
            (build_gen_eqs m allowed).1 with
        | error e => simp only [error_bind]; rfl
        | ok eqs =>
            simp only [ok_bind]
            cases hf : final_checks eqs with
            | error e => simp only [error_bind]; rfl
            | ok log3 => simp only [ok_bind]; rfl
  · intro hok hmm
    obtain ⟨allowed, eqs, log3, hg, he, hf, hsys, hlog⟩ :=
      system_init_ok_shape m (init_system m) (init_log m)
        (init_ok_shape m hok)
    unfold gen_count_mismatch gen_phase at hmm
    simp only [hg] at hmm
    by_cases hcond : m.n_phonon_types = 1 ∧ m.phonon_max_per_site = none
    · rw [if_pos hcond, decide_eq_true_eq] at hmm
      have hpred : predict_total_terms m (build_gen_eqs m allowed).1
          = [LogEntry.mk .errorL
              "Predicted generalized equations from analytic equation mismatch"] := by
        unfold predict_total_terms
        rw [if_pos hcond, if_neg hmm]
      rw [hlog, hpred]
      simp
    · rw [if_neg hcond] at hmm
      cases hmm
  · intro hok hmm
    obtain ⟨allowed, eqs, log3, hg, he, hf, hsys, hlog⟩ :=
      system_init_ok_shape m (init_system m) (init_log m)
        (init_ok_shape m hok)
    unfold expand_count_mismatch at hmm
    simp only [hg, he] at hmm
    rw [decide_eq_true_eq] at hmm
    rw [hlog, if_neg hmm]
    simp

/-- Witness for C6: both mismatching toy models construct successfully,
coincide with the check-free pipeline, and carry an error-level log
entry. -/
theorem count_warnings_nonfatal_witness :
    Except.map Prod.fst (system_init toyMismatch)
        = system_init_nochecks toyMismatch
    ∧ (init_log toyMismatch).any
        (fun e => decide (e.level = LogLevel.errorL)) = true
    ∧ (init_log toyExpandMismatch).any
        (fun e => decide (e.level = LogLevel.errorL)) = true :=
  ⟨(count_warnings_nonfatal toyMismatch).1,
   (count_warnings_nonfatal toyMismatch).2.1 rfl rfl,
   (count_warnings_nonfatal toyExpandMismatch).2.2 rfl rfl⟩

end GGCE

namespace GGCE

theorem dictLookup_cons_ne {α β : Type} [DecidableEq α] (d : List (α × β))
    (k k2 : α) (v : β) (h : k2 ≠ k) :
    dictLookup ((k, v) :: d) k2 = dictLookup d k2 := by
  unfold dictLookup
  rw [List.find?_cons_of_neg]
  simp only [decide_eq_true_eq]
  exact fun hk => h hk.symm

theorem dictLookup_isSome_mem {α β : Type} [DecidableEq α]
    (d : List (α × β)) (k : α) (h : (dictLookup d k).isSome = true) :
    k ∈ d.map Prod.fst := by
  unfold dictLookup at h
  cases hf : d.find? (fun p => decide (p.1 = k)) with
  | none => rw [hf] at h; cases h
  | some p =>
      have hpk : p.1 = k := by
        have := List.find?_some hf
        rwa [decide_eq_true_eq] at this
      exact hpk ▸ List.mem_map_of_mem Prod.fst (List.mem_of_find?_eq_some hf)

theorem expanded_sum (master : List (String × List Delta)) :
    ∀ genEqs : List (Nat × List GenEq),
      (((genEqs.map fun p =>
          (p.1, p.2.flatMap fun g =>
            (dictLookupD master g.n_mat_id).map g.bind)).map
        fun p => p.2.length).sum)
      = ((all_gen_ids genEqs).map
          fun s => (dictLookupD master s).length).sum := by
  intro genEqs
  induction genEqs with
  | nil => rfl
  | cons p ps ih =>
      unfold all_gen_ids at ih ⊢
      rw [List.map_cons, List.map_cons, List.sum_cons, List.flatMap_cons,
        List.map_append, List.sum_append, ih]
      congr 1
      rw [List.length_flatMap, List.map_map]
      congr 1
      apply List.map_congr_left
      intro g _
      simp [Function.comp, List.length_map]

theorem master_keys_sum (master : List (String × List Delta))
    (hkeys : (master.map Prod.fst).Nodup) :
    ((master.map Prod.fst).map fun k => (dictLookupD master k).length).sum
      = get_total_terms master := by
  induction master with
  | nil => rfl
  | cons kv rest ih =>
      rw [List.map_cons] at hkeys
      have hout : kv.1 ∉ rest.map Prod.fst := (List.nodup_cons.mp hkeys).1
      have hrest : (rest.map Prod.fst).Nodup := (List.nodup_cons.mp hkeys).2
      rw [List.map_cons, List.map_cons, List.sum_cons]
      have hself : dictLookupD ((kv.1, kv.2) :: rest) kv.1 = kv.2 := by
        unfold dictLookupD
        rw [dictLookup_cons_self]
        rfl
      have hcongr : (rest.map Prod.fst).map
            (fun k => (dictLookupD ((kv.1, kv.2) :: rest) k).length)
          = (rest.map Prod.fst).map
            (fun k => (dictLookupD rest k).length) := by
        apply List.map_congr_left
        intro k hk
        have hne : k ≠ kv.1 := fun hkk => hout (hkk ▸ hk)
        unfold dictLookupD
        rw [dictLookup_cons_ne rest kv.1 k kv.2 hne]
      have hkv : kv = (kv.1, kv.2) := rfl
      rw [hkv, hself, hcongr, ih hrest]
      unfold get_total_terms
      rw [List.map_cons, List.sum_cons]

/-- C3: for every successfully constructed `System` whose generalized
equations carry pairwise distinct identities and whose master argument
list's keys are exactly those identities (as sets, with no key repeated —
the interface properties of the identity scheme of the missing equations
module), the total number of specific equations produced by expansion
equals the value computed by `_get_total_terms` before expansion: the sum
over all master keys of their deduplicated delta-list lengths. -/
theorem count_equals_totals (m : PModel) (hok : init_ok m = true)
    (hinj : (all_gen_ids (init_system m).generalized_equations).Nodup)
    (hkeys : ((init_system m).master.map Prod.fst).Nodup)
    (hcov : ∀ k ∈ (init_system m).master.map Prod.fst,
        k ∈ all_gen_ids (init_system m).generalized_equations) :
    ((init_system m).equations.map fun p => p.2.length).sum
      = get_total_terms (init_system m).master := by
  obtain ⟨allowed, eqs, log3, hg, he, hf, hsys, hlog⟩ :=
    system_init_ok_shape m (init_system m) (init_log m) (init_ok_shape m hok)
  rw [hsys] at hinj hkeys hcov ⊢
  dsimp only at hinj hkeys hcov ⊢
  rw [expand_all_ok_eq (build_gen_eqs m allowed).2
    (build_gen_eqs m allowed).1 eqs he, expanded_sum]
  have hsub1 : ∀ s ∈ all_gen_ids (build_gen_eqs m allowed).1,
      s ∈ (build_gen_eqs m allowed).2.map Prod.fst := by
    intro s hs
    exact dictLookup_isSome_mem _ s
      (expand_all_ok_mem (build_gen_eqs m allowed).2
        (build_gen_eqs m allowed).1 eqs he s hs)
  have hperm : (all_gen_ids (build_gen_eqs m allowed).1).Perm
      ((build_gen_eqs m allowed).2.map Prod.fst) := by
    apply List.perm_of_nodup_nodup_toFinset_eq hinj hkeys
    ext a
    rw [List.mem_toFinset, List.mem_toFinset]
    exact ⟨fun ha => hsub1 a ha, fun ha => hcov a ha⟩
  rw [List.Perm.sum_eq
    (hperm.map fun s => (dictLookupD (build_gen_eqs m allowed).2 s).length)]
  exact master_keys_sum (build_gen_eqs m allowed).2 hkeys

/-- Witness for C3 at the toy model: two generalized equations with
distinct identities `F`, `G`; the master list has exactly those keys, one
deduplicated delta each, and indeed two specific equations are built. -/
theorem count_equals_totals_witness :
    ((init_system toyModel).equations.map fun p => p.2.length).sum
      = get_total_terms (init_system toyModel).master :=
  count_equals_totals toyModel rfl (by decide) (by decide) (by decide)

end GGCE

namespace GGCE

theorem foldl_dictInsert_pairs {α β : Type} [DecidableEq α] :
    ∀ ps : List (α × β), ∀ acc : List (α × β),
      (ps.map Prod.fst).Nodup →
      (∀ s ∈ ps.map Prod.fst, s ∉ acc.map Prod.fst) →
      ps.foldl (fun d q => dictInsert d q.1 q.2) acc = acc ++ ps := by
  intro ps
  induction ps with
  | nil => intro acc _ _; simp
  | cons q qs ih =>
      intro acc hnodup hfresh
      rw [List.map_cons, List.nodup_cons] at hnodup
      have hq : q.1 ∉ acc.map Prod.fst :=
        hfresh q.1 (List.mem_cons_self q.1 _)
      rw [List.foldl_cons, dictInsert_fresh acc q.1 q.2 hq]
      have hfresh2 : ∀ s ∈ qs.map Prod.fst,
          s ∉ (acc ++ [(q.1, q.2)]).map Prod.fst := by
        intro s hs
        rw [List.map_append, List.mem_append]
        rintro (h1 | h2)
        · exact hfresh s (List.mem_cons_of_mem q.1 hs) h1
        · rw [List.map_singleton, List.mem_singleton] at h2
          exact hnodup.1 (h2 ▸ hs)
      rw [ih (acc ++ [(q.1, q.2)]) hnodup.2 hfresh2, List.append_assoc]
      rfl

theorem basis_counter_fold :
    ∀ all : List SpecEq, ∀ acc : List (String × Nat), ∀ c : Nat,
      (all.map SpecEq.index_id).Nodup →
      (∀ s ∈ all.map SpecEq.index_id, s ∉ acc.map Prod.fst) →
      (all.foldl (fun a eq => (dictInsert a.1 eq.index_id a.2, a.2 + 1))
        (acc, c)).1
        = acc ++ (all.enumFrom c).map fun q => (q.2.index_id, q.1) := by
  intro all
  induction all with
  | nil => intro acc c _ _; simp [List.enumFrom]
  | cons eq rest ih =>
      intro acc c hnodup hfresh
      rw [List.map_cons, List.nodup_cons] at hnodup
      have hq : eq.index_id ∉ acc.map Prod.fst :=
        hfresh eq.index_id (List.mem_cons_self eq.index_id _)
      rw [List.foldl_cons]
      dsimp only
      rw [dictInsert_fresh acc eq.index_id c hq]
      have hfresh2 : ∀ s ∈ rest.map SpecEq.index_id,
          s ∉ (acc ++ [(eq.index_id, c)]).map Prod.fst := by
        intro s hs
        rw [List.map_append, List.mem_append]
        rintro (h1 | h2)
        · exact hfresh s (List.mem_cons_of_mem eq.index_id hs) h1
        · rw [List.map_singleton, List.mem_singleton] at h2
          have h3 : s = eq.index_id := h2
          exact hnodup.1 (h3 ▸ hs)
      rw [ih (acc ++ [(eq.index_id, c)]) (c + 1) hnodup.2 hfresh2,
        List.enumFrom_cons, List.map_cons, List.append_assoc]
      rfl

theorem defined_ids_eq_map (eqs : List (Nat × List SpecEq)) :
    defined_ids eqs = (eqs.flatMap fun p => p.2).map SpecEq.index_id := by
  unfold defined_ids
  rw [List.map_flatMap]

theorem get_basis_full_eq (eqs : List (Nat × List SpecEq))
    (hids : (defined_ids eqs).Nodup) :
    get_basis_full eqs
      = ((eqs.flatMap fun p => p.2).enumFrom 0).map
          fun q => (q.2.index_id, q.1) := by
  unfold get_basis_full
  rw [defined_ids_eq_map] at hids
  exact basis_counter_fold (eqs.flatMap fun p => p.2) [] 0 hids
    (by intro s _ hs; cases hs)

theorem enum_pairs_snd (l : List SpecEq) (c : Nat) :
    ((l.enumFrom c).map fun q => (q.2.index_id, q.1)).map Prod.snd
      = List.range' c l.length := by
  rw [List.map_map]
  have h : (Prod.snd ∘ fun q : Nat × SpecEq => (q.2.index_id, q.1))
      = Prod.fst := rfl
  rw [h, List.enumFrom_map_fst]

theorem enum_pairs_fst (l : List SpecEq) (c : Nat) :
    ((l.enumFrom c).map fun q => (q.2.index_id, q.1)).map Prod.fst
      = l.map SpecEq.index_id := by
  rw [List.map_map]
  have h : (Prod.fst ∘ fun q : Nat × SpecEq => (q.2.index_id, q.1))
      = SpecEq.index_id ∘ Prod.snd := rfl
  rw [h, ← List.map_map, List.enumFrom_map_snd]

theorem dictLookup_of_mem_nodup {α β : Type} [DecidableEq α] :
    ∀ d : List (α × β), ∀ k : α, ∀ v : β,
      (d.map Prod.fst).Nodup → (k, v) ∈ d → dictLookup d k = some v := by
  intro d
  induction d with
  | nil => intro k v _ hmem; cases hmem
  | cons q rest ih =>
      intro k v hnodup hmem
      rw [List.map_cons, List.nodup_cons] at hnodup
      cases hmem with
      | head => exact dictLookup_cons_self rest k v
      | tail _ hmem2 =>
          have hk : k ∈ rest.map Prod.fst :=
            List.mem_map_of_mem Prod.fst hmem2
          have hne : k ≠ q.1 := fun h => hnodup.1 (h ▸ hk)
          have hq : q = (q.1, q.2) := rfl
          rw [hq, dictLookup_cons_ne rest q.1 k q.2 hne]
          exact ih k v hnodup.2 hmem2

theorem bucket_ids_nodup (eqs : List (Nat × List SpecEq))
    (hids : (defined_ids eqs).Nodup) :
    ∀ p ∈ eqs, (p.2.map SpecEq.index_id).Nodup := by
  intro p hp
  unfold defined_ids at hids
  rw [List.flatMap_def] at hids
  exact (List.sublist_flatten_of_mem
    (List.mem_map_of_mem (fun p => p.2.map SpecEq.index_id) hp)).nodup hids

theorem get_basis_local_eq (eqs : List (Nat × List SpecEq))
    (hkeys : (eqs.map Prod.fst).Nodup) :
    get_basis_local eqs
      = eqs.map fun p =>
          (p.1, (p.2.enum).foldl (fun d q => dictInsert d q.2.index_id q.1) []) := by
  unfold get_basis_local
  have hfold := List.foldl_map
    (fun p : Nat × List SpecEq =>
      (p.1, (p.2.enum).foldl (fun d q => dictInsert d q.2.index_id q.1) []))
    (fun (d : List (Nat × List (String × Nat))) q => dictInsert d q.1 q.2)
    eqs ([] : List (Nat × List (String × Nat)))
  have hkeys2 : ((eqs.map fun p : Nat × List SpecEq =>
      (p.1, (p.2.enum).foldl (fun d q => dictInsert d q.2.index_id q.1) [])).map
        Prod.fst).Nodup := by
    rw [List.map_map]
    exact hkeys
  have := foldl_dictInsert_pairs
    (eqs.map fun p : Nat × List SpecEq =>
      (p.1, (p.2.enum).foldl (fun d q => dictInsert d q.2.index_id q.1) []))
    [] hkeys2 (by intro s _ hs; cases hs)
  rw [hfold] at this
  rw [this]
  rfl

theorem local_inner_eq (l : List SpecEq)
    (hids : (l.map SpecEq.index_id).Nodup) :
    (l.enum).foldl (fun d q => dictInsert d q.2.index_id q.1) []
      = (l.enum).map fun q => (q.2.index_id, q.1) := by
  have hfold := List.foldl_map
    (fun q : Nat × SpecEq => (q.2.index_id, q.1))
    (fun (d : List (String × Nat)) q => dictInsert d q.1 q.2)
    l.enum ([] : List (String × Nat))
  have hkeys : (((l.enum).map fun q => (q.2.index_id, q.1)).map Prod.fst).Nodup := by
    have he : l.enum = List.enumFrom 0 l := rfl
    rw [he, enum_pairs_fst]
    exact hids
  have := foldl_dictInsert_pairs ((l.enum).map fun q => (q.2.index_id, q.1))
    [] hkeys (by intro s _ hs; cases hs)
  rw [hfold] at this
  rw [this]
  rfl

end GGCE

namespace GGCE

theorem init_equations_keys_nodup (m : PModel) (hok : init_ok m = true) :
    ((init_system m).equations.map Prod.fst).Nodup := by
  obtain ⟨allowed, eqs, log3, hg, he, hf, hsys, hlog⟩ :=
    system_init_ok_shape m (init_system m) (init_log m) (init_ok_shape m hok)
  rw [hsys]
  dsimp only
  rw [expand_all_ok_eq (build_gen_eqs m allowed).2
    (build_gen_eqs m allowed).1 eqs he, List.map_map]
  have hcomp : (Prod.fst ∘ fun p : Nat × List GenEq =>
      (p.1, p.2.flatMap fun g =>
        (dictLookupD (build_gen_eqs m allowed).2 g.n_mat_id).map g.bind))
      = Prod.fst := rfl
  rw [hcomp]
  have h0 := generate_keys_ne_zero m allowed hg
  rw [build_gen_eqs_append m allowed h0, List.map_append, List.map_map]
  have hc2 : (Prod.fst ∘ fun p : Nat × List (List (List Nat)) =>
      (p.1, p.2.map m.from_config)) = Prod.fst := rfl
  rw [hc2, generate_keys m allowed hg]
  rw [List.nodup_append]
  refine ⟨?_, ?_, ?_⟩
  · exact List.Nodup.map (fun a b hab => by omega)
      (List.nodup_range m.phonon_number.sum)
  · simp
  · intro a ha hb
    rw [List.map_singleton, List.mem_singleton] at hb
    rw [List.mem_map] at ha
    obtain ⟨i, _, rfl⟩ := ha
    have hb2 : i + 1 = 0 := hb
    omega

/-- C5: for every successfully constructed `System` whose specific
equations carry pairwise distinct identities (an interface property of
the identity scheme of the missing equations module), the full basis maps
exactly the defined identities, in generation order, to the contiguous
index range `0..N-1` with no repeat, where `N` is the total specific
equation count; and the local basis maps, within each phonon-count
bucket of `n` equations, that bucket's identities to the contiguous range
`0..n-1`.  Both mappings are values of pure functions of the generation
order, hence deterministic. -/
theorem basis_contiguous (m : PModel) (hok : init_ok m = true)
    (hids : (defined_ids (init_system m).equations).Nodup) :
    ((get_basis_full (init_system m).equations).map Prod.fst
        = defined_ids (init_system m).equations)
    ∧ ((get_basis_full (init_system m).equations).map Prod.snd
        = List.range (defined_ids (init_system m).equations).length)
    ∧ ((defined_ids (init_system m).equations).length
        = ((init_system m).equations.map fun p => p.2.length).sum)
    ∧ (∀ p ∈ (init_system m).equations,
        dictLookup (get_basis_local (init_system m).equations) p.1
          = some ((p.2.enum).map fun q => (q.2.index_id, q.1))
        ∧ ((p.2.enum).map fun q => (q.2.index_id, q.1)).map Prod.snd
            = List.range p.2.length
        ∧ ((p.2.enum).map fun q => (q.2.index_id, q.1)).map Prod.fst
            = p.2.map SpecEq.index_id) := by
  have hfull := get_basis_full_eq (init_system m).equations hids
  refine ⟨?_, ?_, ?_, ?_⟩
  · rw [hfull, enum_pairs_fst, ← defined_ids_eq_map]
  · rw [hfull, enum_pairs_snd, List.range_eq_range']
    congr 1
    rw [defined_ids_eq_map, List.length_map]
  · unfold defined_ids
    rw [List.length_flatMap]
    congr 1
    apply List.map_congr_left
    intro p _
    simp [List.length_map]
  · intro p hp
    have hkeysN := init_equations_keys_nodup m hok
    have hbucket := bucket_ids_nodup (init_system m).equations hids p hp
    refine ⟨?_, ?_, ?_⟩
    · rw [get_basis_local_eq (init_system m).equations hkeysN]
      have hkeys2 : (((init_system m).equations.map
          fun p : Nat × List SpecEq =>
            (p.1, (p.2.enum).foldl
              (fun d q => dictInsert d q.2.index_id q.1) [])).map
          Prod.fst).Nodup := by
        rw [List.map_map]
        exact hkeysN
      have hmem : (p.1, (p.2.enum).foldl
            (fun d q => dictInsert d q.2.index_id q.1) [])
          ∈ (init_system m).equations.map fun p : Nat × List SpecEq =>
            (p.1, (p.2.enum).foldl
              (fun d q => dictInsert d q.2.index_id q.1) []) :=
        List.mem_map_of_mem _ hp
      have hlook := dictLookup_of_mem_nodup _ p.1 _ hkeys2 hmem
      rw [local_inner_eq p.2 hbucket] at hlook
      exact hlook
    · have he0 : p.2.enum = List.enumFrom 0 p.2 := rfl
      rw [he0, enum_pairs_snd, List.range_eq_range']
    · have he0 : p.2.enum = List.enumFrom 0 p.2 := rfl
      rw [he0, enum_pairs_fst]

/-- Witness for C5 at the toy model: two specific equations `F0`, `G0`;
the full basis is the range `0..1`, each bucket's local basis is `0..0`. -/
theorem basis_contiguous_witness :
    ((get_basis_full (init_system toyModel).equations).map Prod.fst
        = defined_ids (init_system toyModel).equations)
    ∧ ((get_basis_full (init_system toyModel).equations).map Prod.snd
        = List.range (defined_ids (init_system toyModel).equations).length)
    ∧ ((defined_ids (init_system toyModel).equations).length
        = ((init_system toyModel).equations.map fun p => p.2.length).sum)
    ∧ (∀ p ∈ (init_system toyModel).equations,
        dictLookup (get_basis_local (init_system toyModel).equations) p.1
          = some ((p.2.enum).map fun q => (q.2.index_id, q.1))
        ∧ ((p.2.enum).map fun q => (q.2.index_id, q.1)).map Prod.snd
            = List.range p.2.length
        ∧ ((p.2.enum).map fun q => (q.2.index_id, q.1)).map Prod.fst
            = p.2.map SpecEq.index_id) :=
  basis_contiguous toyModel rfl (by decide)

end GGCE
